import Mathlib

/-!
# AsyncEventQueue (src/cpp/async-event-queue.hpp, src/cpp/async-event-queue.cpp)

A shallow embedding of the asynchronous event queue: the object's fields, the
producer-side operations (`PostEvent`, `PostStart`, `PostStop`), the queue
hand-off (`DequeueEvents`), the lifecycle operations (`Setup`, `Teardown`) and
the event thread's main loop (`EventMain`), the latter as a deterministic step
function so that executions are interleavings of atomic producer posts and
worker steps.

The event classes (`event::Start`, `event::Stop`, `event::Shutdown`, domain
events), `State`, `Handlers`, `Log` and `Exception` are declared in headers that
are not part of the sources; what an event's `Run` does is a parameter of the
development (`run`), except for `event::Shutdown`.
-/

namespace cpp_samples

/-- How one call `event->Run(GetState(), this)` ends: it returns, it throws an
`Exception::Base` (the error class caught at line 101 of the .cpp), or it throws
another `std::exception` (caught at line 111). -/
inductive Outcome where
  | returned
  | base
  | unexpected
  deriving DecidableEq, Repr

/-- What one call of `Run` did to the object before it ended: the current state
it left behind (through `SetState`), whether it called `PerformShutdown`, and
how the call ended. -/
structure Effect (State : Type) where
  state : State
  shutdown : Bool
  outcome : Outcome
  deriving DecidableEq, Repr

/-- The events of the source: `event::Start` (PostStart), `event::Stop`
(PostStop), `event::Shutdown` (Teardown) and the domain events a subclass posts
through the protected `PostEvent`. -/
inductive Event (Payload : Type) where
  | Start
  | Stop
  | Shutdown
  | domain (p : Payload)
  deriving DecidableEq, Repr

/-- The exceptions named by the sources, and `terminate` for `std::terminate`. -/
inductive Error where
  | InvalidArgument
  | system_error
  | terminate
  deriving DecidableEq, Repr

/-- Where the event thread stands in `EventMain`:
`entry` - started, before line 78;
`waiting` - at the head of the `for` loop (lines 85-87), queue mutex held or
released inside `wait`;
`processing` - in the inner `while` loop (lines 95-100), mutex released;
`exited` - `EventMain` has returned. -/
inductive Pc where
  | entry
  | waiting
  | processing
  | exited
  deriving DecidableEq, Repr

/-- The object `AsyncEventQueue`. `state_`, `handlers_`, `shutdown_`, `queue_`
and `event_thread_` are the members of the class (`event_thread_ = none` is a
`std::thread` that is not joinable); `local_queue` is the local variable of
`EventMain`; `applied` and `log` record what the worker did: the events whose
`Run` was called, in call order, and the number of `Log::error` entries. -/
structure AsyncEventQueue (State Payload Handlers : Type) where
  state_ : State
  handlers_ : Option Handlers
  shutdown_ : Bool
  queue_ : List (Event Payload)
  event_thread_ : Option Pc
  local_queue : List (Event Payload)
  applied : List (Event Payload)
  log : Nat
  deriving DecidableEq, Repr

/-- The result of an operation that may block for ever or throw. -/
inductive Completion (α : Type) where
  | done (a : α)
  | pending
  | thrown (e : Error)
  deriving DecidableEq, Repr

/-- One atomic action of an execution: a producer thread completes a
`PostEvent`, or the event thread takes its next step. -/
inductive Action (Payload : Type) where
  | post (producer : Nat) (e : Event Payload)
  | work
  deriving DecidableEq, Repr

/-- One operation on the shared queue. -/
inductive QueueOp (Payload : Type) where
  | post (e : Event Payload)
  | dequeue
  deriving DecidableEq, Repr

variable {State Payload Handlers : Type}

/-- Modelled from the spec: the class `event::Shutdown` is not in the sources;
the spec says its apply "performs no state transition beyond marking the worker
for termination", which is a call of `PerformShutdown`. The `Run` of every other
event is the parameter `run`. -/
def Event.Run (run : Event Payload → State → Effect State) :
    Event Payload → State → Effect State
  | .Shutdown, s => ⟨s, true, .returned⟩
  | e, s => run e s

namespace AsyncEventQueue

/-- The constructor (lines 17-22 of the .cpp): `shutdown_` starts as `true`. -/
def new (initial_state : State) (handlers : Option Handlers) :
    AsyncEventQueue State Payload Handlers :=
  { state_ := initial_state, handlers_ := handlers, shutdown_ := true, queue_ := [],
    event_thread_ := none, local_queue := [], applied := [], log := 0 }

/-- Member `Setup` (lines 27-29): starts the event thread. Assigning to a
`std::thread` that is still joinable calls `std::terminate`. -/
def Setup (o : AsyncEventQueue State Payload Handlers) :
    Except Error (AsyncEventQueue State Payload Handlers) :=
  match o.event_thread_ with
  | some _ => .error .terminate
  | none => .ok { o with event_thread_ := some .entry }

/-- Member `running` (line 64 of the .hpp). -/
def running (o : AsyncEventQueue State Payload Handlers) : Bool := !o.shutdown_

/-- Member `GetState` (line 69 of the .hpp). -/
def GetState (o : AsyncEventQueue State Payload Handlers) : State := o.state_

/-- Member `SetState` (line 78 of the .hpp). -/
def SetState (o : AsyncEventQueue State Payload Handlers) (pstate : State) :
    AsyncEventQueue State Payload Handlers :=
  { o with state_ := pstate }

/-- Member `PerformShutdown` (line 90 of the .hpp). -/
def PerformShutdown (o : AsyncEventQueue State Payload Handlers) :
    AsyncEventQueue State Payload Handlers :=
  { o with shutdown_ := true }

/-- Member `PostEvent` (lines 60-66): the event goes to the tail of `queue_`
under the mutex; `notify_one` changes no field. -/
def PostEvent (o : AsyncEventQueue State Payload Handlers) (event : Event Payload) :
    AsyncEventQueue State Payload Handlers :=
  { o with queue_ := o.queue_ ++ [event] }

/-- Member `PostStart` (lines 47-49). -/
def PostStart (o : AsyncEventQueue State Payload Handlers) :
    AsyncEventQueue State Payload Handlers :=
  o.PostEvent .Start

/-- Member `PostStop` (lines 54-56). -/
def PostStop (o : AsyncEventQueue State Payload Handlers) :
    AsyncEventQueue State Payload Handlers :=
  o.PostEvent .Stop

/-- Member `DequeueEvents` (lines 97-101 of the .hpp): swaps `queue_` with an
empty queue and returns the former contents. -/
def DequeueEvents (o : AsyncEventQueue State Payload Handlers) :
    List (Event Payload) × AsyncEventQueue State Payload Handlers :=
  (o.queue_, { o with queue_ := [] })

/-- Lines 105-109 of `EventMain`: after the inner loop (or the catch of
`Exception::Base`), leave the `for` loop when not running, else lock again. -/
def afterBatch (o : AsyncEventQueue State Payload Handlers) :
    AsyncEventQueue State Payload Handlers :=
  if !o.running then { o with event_thread_ := some .exited }
  else { o with event_thread_ := some .waiting }

/-- One step of the event thread in `EventMain` (lines 76-118).
* `entry`: line 78-80;
* `waiting`: lines 85-92; with an empty queue the thread stays blocked in
  `wait`, otherwise it takes the whole queue as its batch;
* `processing`: one turn of the inner loop (lines 95-100) with the two catch
  clauses (lines 101 and 111), or the end of the loop (lines 105-109);
* `exited` or no thread: nothing happens. -/
def EventMain (run : Event Payload → State → Effect State)
    (o : AsyncEventQueue State Payload Handlers) : AsyncEventQueue State Payload Handlers :=
  match o.event_thread_ with
  | some .entry =>
      { o with shutdown_ := false, local_queue := [], event_thread_ := some .waiting }
  | some .waiting =>
      if o.queue_.isEmpty then o
      else { (o.DequeueEvents).2 with
               local_queue := (o.DequeueEvents).1, event_thread_ := some .processing }
  | some .processing =>
      match o.local_queue with
      | event :: rest =>
          if o.running then
            let eff := event.Run run o.GetState
            let o1 := { o with local_queue := rest, applied := o.applied ++ [event] }
            let o2 := (if eff.shutdown then o1.PerformShutdown else o1).SetState eff.state
            match eff.outcome with
            | .returned => o2
            | .base => o2.afterBatch
            | .unexpected => { o2 with log := o2.log + 1, event_thread_ := some .exited }
          else o.afterBatch
      | [] => o.afterBatch
  | some .exited => o
  | none => o

/-- The event thread takes `n` steps with no producer in between. -/
def EventMainN (run : Event Payload → State → Effect State) :
    Nat → AsyncEventQueue State Payload Handlers → AsyncEventQueue State Payload Handlers
  | 0, o => o
  | n + 1, o => EventMainN run n (EventMain run o)

/-- The call `event_thread_.join()` (line 36): throws `std::system_error` when
the thread is not joinable, returns once `EventMain` has returned, and is still
`pending` when the event thread has not exited within `fuel` steps. -/
def join (run : Event Payload → State → Effect State) :
    Nat → AsyncEventQueue State Payload Handlers →
      Completion (AsyncEventQueue State Payload Handlers)
  | 0, o =>
      match o.event_thread_ with
      | none => .thrown .system_error
      | some .exited => .done { o with event_thread_ := none }
      | some _ => .pending
  | fuel + 1, o =>
      match o.event_thread_ with
      | none => .thrown .system_error
      | some .exited => .done { o with event_thread_ := none }
      | some _ => join run fuel (EventMain run o)

/-- Member `Teardown` (lines 34-42): posts `event::Shutdown`, joins the event
thread, then pops whatever is left in `queue_`. -/
def Teardown (run : Event Payload → State → Effect State) (fuel : Nat)
    (o : AsyncEventQueue State Payload Handlers) :
    Completion (AsyncEventQueue State Payload Handlers) :=
  match join run fuel (o.PostEvent .Shutdown) with
  | .done o1 => .done { o1 with queue_ := [] }
  | .pending => .pending
  | .thrown e => .thrown e

/-- One action of an execution applied to the object. -/
def act (run : Event Payload → State → Effect State) :
    Action Payload → AsyncEventQueue State Payload Handlers →
      AsyncEventQueue State Payload Handlers
  | .post _ e, o => o.PostEvent e
  | .work, o => EventMain run o

/-- An execution: the actions of a schedule applied one after another. -/
def exec (run : Event Payload → State → Effect State) :
    List (Action Payload) → AsyncEventQueue State Payload Handlers →
      AsyncEventQueue State Payload Handlers
  | [], o => o
  | a :: rest, o => exec run rest (act run a o)

/-- Queue operations applied one after another; the first component collects
the batches `DequeueEvents` returned, oldest first. -/
def queueOps : List (QueueOp Payload) →
    List (List (Event Payload)) × AsyncEventQueue State Payload Handlers →
      List (List (Event Payload)) × AsyncEventQueue State Payload Handlers
  | [], acc => acc
  | .post e :: rest, (batches, o) => queueOps rest (batches, o.PostEvent e)
  | .dequeue :: rest, (batches, o) =>
      queueOps rest (batches ++ [(o.DequeueEvents).1], (o.DequeueEvents).2)

end AsyncEventQueue

/-- The events a schedule posts, in the order they enter the queue. -/
def posted : List (Action Payload) → List (Event Payload)
  | [] => []
  | .post _ e :: rest => e :: posted rest
  | .work :: rest => posted rest

/-- The events one producer posts in a schedule, in its post order. -/
def postedBy (producer : Nat) : List (Action Payload) → List (Event Payload)
  | [] => []
  | .post p e :: rest =>
      if p = producer then e :: postedBy producer rest else postedBy producer rest
  | .work :: rest => postedBy producer rest

/-- The events a sequence of queue operations posts, in post order. -/
def postedOps : List (QueueOp Payload) → List (Event Payload)
  | [] => []
  | .post e :: rest => e :: postedOps rest
  | .dequeue :: rest => postedOps rest

/-- The state after the events are applied one after another. -/
def applyAll (run : Event Payload → State → Effect State) :
    State → List (Event Payload) → State
  | s, [] => s
  | s, e :: rest => applyAll run (e.Run run s).state rest

/-- The events are not `Shutdown` and, applied one after another from state
`s`, each returns without an error and without calling `PerformShutdown`. -/
def quiet (run : Event Payload → State → Effect State) :
    State → List (Event Payload) → Prop
  | _, [] => True
  | s, e :: rest =>
      e ≠ .Shutdown ∧ (e.Run run s).outcome = .returned ∧ (e.Run run s).shutdown = false ∧
        quiet run (e.Run run s).state rest

/-- Payloads of a small domain for concrete scenarios: `SetX n` sets the state
to `n`, `Bad` throws an `Exception::Base`, `Fatal` throws another
`std::exception`. -/
inductive Sample where
  | SetX (n : Nat)
  | Bad
  | Fatal
  deriving DecidableEq, Repr

/-- The `Run` of the events of the sample domain over the state `X : Nat`;
`Start` and `Stop` leave the state as it is. -/
def sampleRun : Event Sample → Nat → Effect Nat
  | .domain (.SetX n), _ => ⟨n, false, .returned⟩
  | .domain .Bad, s => ⟨s, false, .base⟩
  | .domain .Fatal, s => ⟨s, false, .unexpected⟩
  | _, s => ⟨s, false, .returned⟩

/-- The sample object after construction and `Setup`. -/
def sampleStarted : AsyncEventQueue Nat Sample Unit :=
  { state_ := 0, handlers_ := some (), shutdown_ := true, queue_ := [],
    event_thread_ := some .entry, local_queue := [], applied := [], log := 0 }

/-- The objects from which the event thread still has all its work before it:
freshly started, blocked or about to drain with no batch left over, or inside
a batch with the shutdown flag down. -/
def Ready (o : AsyncEventQueue State Payload Handlers) : Prop :=
  (o.event_thread_ = some .entry ∧ o.local_queue = []) ∨
  (o.event_thread_ = some .waiting ∧ o.local_queue = [] ∧ o.shutdown_ = false) ∨
  (o.event_thread_ = some .processing ∧ o.shutdown_ = false)

/-- The event thread cannot apply anything any more: it has exited, was never
started or was joined, or it is in a batch with the shutdown flag up. -/
def Halted (o : AsyncEventQueue State Payload Handlers) : Prop :=
  o.event_thread_ = some .exited ∨ o.event_thread_ = none ∨
    (o.event_thread_ = some .processing ∧ o.shutdown_ = true)

/-- The events the event thread still holds for application: its batch while
it is in the inner loop, nothing otherwise (a batch left over in `local_queue`
is overwritten by the next `DequeueEvents`). -/
def live (o : AsyncEventQueue State Payload Handlers) : List (Event Payload) :=
  match o.event_thread_ with
  | some .processing => o.local_queue
  | _ => []

/-- The number of steps the event thread takes in a schedule. -/
def works : List (Action Payload) → Nat
  | [] => 0
  | .post _ _ :: rest => works rest
  | .work :: rest => works rest + 1

instance quietDecidable [DecidableEq Payload] (run : Event Payload → State → Effect State) :
    (s : State) → (l : List (Event Payload)) → Decidable (quiet run s l)
  | _, [] => isTrue trivial
  | s, e :: rest =>
    have := quietDecidable run (e.Run run s).state rest
    inferInstanceAs (Decidable (e ≠ .Shutdown ∧ (e.Run run s).outcome = .returned ∧
      (e.Run run s).shutdown = false ∧ quiet run (e.Run run s).state rest))

instance ReadyDecidable [DecidableEq Payload] (o : AsyncEventQueue State Payload Handlers) :
    Decidable (Ready o) := by
  unfold Ready
  infer_instance

/-- A schedule of the sample domain: two producers post `SetX 1`, `SetX 2` and
`Stop` while the event thread runs. -/
def sampleSchedule : List (Action Sample) :=
  [.post 0 (.domain (.SetX 1)), .work, .post 1 (.domain (.SetX 2)), .work, .work,
    .post 0 .Stop]

/-- The sample object in the middle of the batch `SetX 1, Fatal, SetX 2`. -/
def sampleInBatch : AsyncEventQueue Nat Sample Unit :=
  { state_ := 0, handlers_ := some (), shutdown_ := false, queue_ := [],
    event_thread_ := some .processing,
    local_queue := [.domain (.SetX 1), .domain .Fatal, .domain (.SetX 2)],
    applied := [], log := 0 }

/-- The sample object after `Setup` and an immediate `Teardown`. -/
def sampleTornDown : AsyncEventQueue Nat Sample Unit :=
  { state_ := 0, handlers_ := some (), shutdown_ := true, queue_ := [],
    event_thread_ := none, local_queue := [], applied := [.Shutdown], log := 0 }

/-- The sample object after the batch `Bad, SetX 5` was cut short by the error
of `Bad`: the event thread waits on an empty queue, `SetX 5` is left in
`local_queue`. -/
def sampleAbandoned : AsyncEventQueue Nat Sample Unit :=
  { state_ := 0, handlers_ := some (), shutdown_ := false, queue_ := [],
    event_thread_ := some .waiting, local_queue := [.domain (.SetX 5)],
    applied := [.domain .Bad], log := 0 }

open AsyncEventQueue

/-! ## The event thread, step by step -/

theorem EventMain_entry (run : Event Payload → State → Effect State) (s : State)
    (h : Option Handlers) (sd : Bool) (q l a : List (Event Payload)) (lg : Nat) :
    EventMain run ⟨s, h, sd, q, some .entry, l, a, lg⟩ =
      ⟨s, h, false, q, some .waiting, [], a, lg⟩ := rfl

theorem EventMain_blocked (run : Event Payload → State → Effect State) (s : State)
    (h : Option Handlers) (sd : Bool) (l a : List (Event Payload)) (lg : Nat) :
    EventMain run ⟨s, h, sd, [], some .waiting, l, a, lg⟩ =
      ⟨s, h, sd, [], some .waiting, l, a, lg⟩ := rfl

theorem EventMain_drain (run : Event Payload → State → Effect State) (s : State)
    (h : Option Handlers) (sd : Bool) (q l a : List (Event Payload)) (lg : Nat)
    (hq : q ≠ []) :
    EventMain run ⟨s, h, sd, q, some .waiting, l, a, lg⟩ =
      ⟨s, h, sd, [], some .processing, q, a, lg⟩ := by
  cases q with
  | nil => exact absurd rfl hq
  | cons e q => rfl

theorem EventMain_exited (run : Event Payload → State → Effect State)
    (o : AsyncEventQueue State Payload Handlers) (ho : o.event_thread_ = some .exited) :
    EventMain run o = o := by
  simp [EventMain, ho]

theorem EventMain_no_thread (run : Event Payload → State → Effect State)
    (o : AsyncEventQueue State Payload Handlers) (ho : o.event_thread_ = none) :
    EventMain run o = o := by
  simp [EventMain, ho]

theorem EventMain_returned (run : Event Payload → State → Effect State) (s : State)
    (h : Option Handlers) (q rest a : List (Event Payload)) (lg : Nat) (e : Event Payload)
    (hout : (e.Run run s).outcome = .returned) :
    EventMain run ⟨s, h, false, q, some .processing, e :: rest, a, lg⟩ =
      ⟨(e.Run run s).state, h, (e.Run run s).shutdown, q, some .processing, rest,
        a ++ [e], lg⟩ := by
  cases hsd : (e.Run run s).shutdown <;>
    simp [EventMain, running, GetState, SetState, PerformShutdown, hout, hsd]

theorem EventMain_base (run : Event Payload → State → Effect State) (s : State)
    (h : Option Handlers) (q rest a : List (Event Payload)) (lg : Nat) (e : Event Payload)
    (hout : (e.Run run s).outcome = .base) :
    EventMain run ⟨s, h, false, q, some .processing, e :: rest, a, lg⟩ =
      ⟨(e.Run run s).state, h, (e.Run run s).shutdown, q,
        some (if (e.Run run s).shutdown then .exited else .waiting), rest, a ++ [e], lg⟩ := by
  cases hsd : (e.Run run s).shutdown <;>
    simp [EventMain, running, GetState, SetState, PerformShutdown, afterBatch, hout, hsd]

theorem EventMain_unexpected (run : Event Payload → State → Effect State) (s : State)
    (h : Option Handlers) (q rest a : List (Event Payload)) (lg : Nat) (e : Event Payload)
    (hout : (e.Run run s).outcome = .unexpected) :
    EventMain run ⟨s, h, false, q, some .processing, e :: rest, a, lg⟩ =
      ⟨(e.Run run s).state, h, (e.Run run s).shutdown, q, some .exited, rest,
        a ++ [e], lg + 1⟩ := by
  cases hsd : (e.Run run s).shutdown <;>
    simp [EventMain, running, GetState, SetState, PerformShutdown, hout, hsd]

theorem EventMain_batch_end (run : Event Payload → State → Effect State) (s : State)
    (h : Option Handlers) (sd : Bool) (q a : List (Event Payload)) (lg : Nat) :
    EventMain run ⟨s, h, sd, q, some .processing, [], a, lg⟩ =
      ⟨s, h, sd, q, some (if sd then .exited else .waiting), [], a, lg⟩ := by
  cases sd <;> simp [EventMain, running, afterBatch]

theorem EventMain_stopped (run : Event Payload → State → Effect State) (s : State)
    (h : Option Handlers) (q l a : List (Event Payload)) (lg : Nat) :
    EventMain run ⟨s, h, true, q, some .processing, l, a, lg⟩ =
      ⟨s, h, true, q, some .exited, l, a, lg⟩ := by
  cases l <;> simp [EventMain, running, afterBatch]

theorem EventMain_thread_isSome (run : Event Payload → State → Effect State)
    (o : AsyncEventQueue State Payload Handlers) (ho : o.event_thread_ ≠ none) :
    (EventMain run o).event_thread_ ≠ none := by
  obtain ⟨s, h, sd, q, t, l, a, lg⟩ := o
  cases t with
  | none => exact absurd rfl ho
  | some pc =>
    cases pc with
    | entry => simp [EventMain_entry]
    | waiting =>
      cases q with
      | nil => simp [EventMain_blocked]
      | cons e q => simp [EventMain_drain]
    | processing =>
      cases sd with
      | true => simp [EventMain_stopped]
      | false =>
        cases l with
        | nil => simp [EventMain_batch_end]
        | cons e rest =>
          cases hout : (e.Run run s).outcome with
          | returned => simp [EventMain_returned, hout]
          | base => simp [EventMain_base, hout]
          | unexpected => simp [EventMain_unexpected, hout]
    | exited => simp [EventMain]

theorem EventMainN_add (run : Event Payload → State → Effect State) (m n : Nat)
    (o : AsyncEventQueue State Payload Handlers) :
    EventMainN run (m + n) o = EventMainN run n (EventMainN run m o) := by
  induction m generalizing o with
  | zero => simp [EventMainN]
  | succ m ih =>
    rw [Nat.add_right_comm]
    simp only [EventMainN]
    exact ih (EventMain run o)

theorem EventMainN_exited (run : Event Payload → State → Effect State) (n : Nat)
    (o : AsyncEventQueue State Payload Handlers) (ho : o.event_thread_ = some .exited) :
    EventMainN run n o = o := by
  induction n with
  | zero => rfl
  | succ n ih => simp only [EventMainN, EventMain_exited run o ho, ih]

theorem join_exited (run : Event Payload → State → Effect State) (fuel : Nat)
    (o : AsyncEventQueue State Payload Handlers) (ho : o.event_thread_ = some .exited) :
    join run fuel o = .done { o with event_thread_ := none } := by
  cases fuel <;> simp [join, ho]

theorem join_of_EventMainN (run : Event Payload → State → Effect State) (n : Nat) :
    ∀ (o : AsyncEventQueue State Payload Handlers), o.event_thread_ ≠ none →
      (EventMainN run n o).event_thread_ = some .exited →
      ∀ fuel, n ≤ fuel →
        join run fuel o = .done { EventMainN run n o with event_thread_ := none } := by
  induction n with
  | zero =>
    intro o _ hex fuel _
    exact join_exited run fuel o hex
  | succ n ih =>
    intro o hsome hex fuel hfuel
    by_cases ho : o.event_thread_ = some .exited
    · rw [EventMainN_exited run (n + 1) o ho]
      exact join_exited run fuel o ho
    · obtain ⟨k, rfl⟩ : ∃ k, fuel = k + 1 := ⟨fuel - 1, by omega⟩
      have hstep : join run (k + 1) o = join run k (EventMain run o) := by
        cases ht : o.event_thread_ with
        | none => exact absurd ht hsome
        | some pc =>
          cases pc with
          | exited => exact absurd ht ho
          | entry => simp [join, ht]
          | waiting => simp [join, ht]
          | processing => simp [join, ht]
      rw [hstep]
      exact ih (EventMain run o) (EventMain_thread_isSome run o hsome) hex k (by omega)

/-! ## Sequential application -/

theorem applyAll_append (run : Event Payload → State → Effect State) (s : State)
    (l₁ l₂ : List (Event Payload)) :
    applyAll run s (l₁ ++ l₂) = applyAll run (applyAll run s l₁) l₂ := by
  induction l₁ generalizing s with
  | nil => rfl
  | cons e l₁ ih => simp [applyAll, ih]

theorem quiet_append (run : Event Payload → State → Effect State) (s : State)
    (l₁ l₂ : List (Event Payload)) :
    quiet run s (l₁ ++ l₂) ↔ quiet run s l₁ ∧ quiet run (applyAll run s l₁) l₂ := by
  induction l₁ generalizing s with
  | nil => simp [quiet, applyAll]
  | cons e l₁ ih => simp [quiet, applyAll, ih, and_assoc]

theorem Run_Shutdown (run : Event Payload → State → Effect State) (s : State) :
    (Event.Shutdown : Event Payload).Run run s = ⟨s, true, .returned⟩ := rfl

/-! ## Batches without errors -/

theorem EventMainN_quiet_batch (run : Event Payload → State → Effect State)
    (h : Option Handlers) (q : List (Event Payload)) (lg : Nat) :
    ∀ (l rest a : List (Event Payload)) (s : State), quiet run s l →
      EventMainN run l.length ⟨s, h, false, q, some .processing, l ++ rest, a, lg⟩ =
        ⟨applyAll run s l, h, false, q, some .processing, rest, a ++ l, lg⟩ := by
  intro l
  induction l with
  | nil => intro rest a s _; simp [EventMainN, applyAll]
  | cons e l ih =>
    intro rest a s hq
    obtain ⟨_, hout, hsd, hq⟩ := hq
    simp only [List.length_cons, EventMainN, List.cons_append]
    rw [EventMain_returned run s h q (l ++ rest) a lg e hout, hsd, ih rest (a ++ [e]) _ hq]
    simp [applyAll]

theorem EventMainN_quiet_then_Shutdown (run : Event Payload → State → Effect State)
    (h : Option Handlers) (q : List (Event Payload)) (lg : Nat)
    (l rest a : List (Event Payload)) (s : State) (hq : quiet run s l) :
    EventMainN run (l.length + 2)
        ⟨s, h, false, q, some .processing, l ++ .Shutdown :: rest, a, lg⟩ =
      ⟨applyAll run s l, h, true, q, some .exited, rest, a ++ l ++ [.Shutdown], lg⟩ := by
  rw [EventMainN_add, EventMainN_quiet_batch run h q lg l _ a s hq]
  simp only [EventMainN]
  rw [EventMain_returned run _ h q rest (a ++ l) lg .Shutdown rfl]
  simp [Run_Shutdown, EventMain_stopped]

theorem EventMainN_quiet_then_waiting (run : Event Payload → State → Effect State)
    (h : Option Handlers) (q : List (Event Payload)) (lg : Nat)
    (l a : List (Event Payload)) (s : State) (hq : quiet run s l) :
    EventMainN run (l.length + 1) ⟨s, h, false, q, some .processing, l, a, lg⟩ =
      ⟨applyAll run s l, h, false, q, some .waiting, [], a ++ l, lg⟩ := by
  have hb := EventMainN_quiet_batch run h q lg l [] a s hq
  rw [List.append_nil] at hb
  rw [EventMainN_add, hb]
  simp [EventMainN, EventMain_batch_end]

theorem EventMainN_to_exit (run : Event Payload → State → Effect State)
    (o : AsyncEventQueue State Payload Handlers) (hr : Ready o)
    (hq : quiet run o.state_ (o.local_queue ++ o.queue_)) :
    ∃ n, EventMainN run n (o.PostEvent .Shutdown) =
      ⟨applyAll run o.state_ (o.local_queue ++ o.queue_), o.handlers_, true, [],
        some .exited, [], o.applied ++ (o.local_queue ++ o.queue_) ++ [.Shutdown], o.log⟩ := by
  obtain ⟨s, h, sd, q, t, l, a, lg⟩ := o
  simp only [PostEvent]
  simp only at hq
  rcases hr with ⟨ht, hl⟩ | ⟨ht, hl, hsd⟩ | ⟨ht, hsd⟩
  · simp only at ht hl
    subst ht hl
    refine ⟨1 + (1 + (q.length + 2)), ?_⟩
    rw [EventMainN_add, EventMainN_add]
    have h1 : EventMainN run 1 (⟨s, h, sd, q ++ [.Shutdown], some .entry, [], a, lg⟩ :
        AsyncEventQueue State Payload Handlers) =
        ⟨s, h, false, q ++ [.Shutdown], some .waiting, [], a, lg⟩ := rfl
    have h2 : EventMainN run 1 (⟨s, h, false, q ++ [.Shutdown], some .waiting, [], a, lg⟩ :
        AsyncEventQueue State Payload Handlers) =
        ⟨s, h, false, [], some .processing, q ++ [.Shutdown], a, lg⟩ := by
      simp [EventMainN, EventMain_drain]
    rw [h1, h2, EventMainN_quiet_then_Shutdown run h [] lg q [] a s (by simpa using hq)]
    simp
  · simp only at ht hl hsd
    subst ht hl hsd
    refine ⟨1 + (q.length + 2), ?_⟩
    rw [EventMainN_add]
    have h2 : EventMainN run 1 (⟨s, h, false, q ++ [.Shutdown], some .waiting, [], a, lg⟩ :
        AsyncEventQueue State Payload Handlers) =
        ⟨s, h, false, [], some .processing, q ++ [.Shutdown], a, lg⟩ := by
      simp [EventMainN, EventMain_drain]
    rw [h2, EventMainN_quiet_then_Shutdown run h [] lg q [] a s (by simpa using hq)]
    simp
  · simp only at ht hsd
    subst ht hsd
    obtain ⟨hql, hqq⟩ := (quiet_append run s l q).1 hq
    refine ⟨(l.length + 1) + (1 + (q.length + 2)), ?_⟩
    rw [EventMainN_add, EventMainN_add,
      EventMainN_quiet_then_waiting run h (q ++ [Event.Shutdown]) lg l a s hql]
    have h2 : EventMainN run 1 (⟨applyAll run s l, h, false, q ++ [.Shutdown], some .waiting,
        [], a ++ l, lg⟩ : AsyncEventQueue State Payload Handlers) =
        ⟨applyAll run s l, h, false, [], some .processing, q ++ [.Shutdown], a ++ l, lg⟩ := by
      simp [EventMainN, EventMain_drain]
    rw [h2, EventMainN_quiet_then_Shutdown run h [] lg q [] (a ++ l) _ hqq]
    simp [applyAll_append]

theorem Ready_thread (o : AsyncEventQueue State Payload Handlers) (hr : Ready o) :
    o.event_thread_ ≠ none := by
  rcases hr with ⟨ht, _⟩ | ⟨ht, _⟩ | ⟨ht, _⟩ <;> simp [ht]

theorem Teardown_of_quiet (run : Event Payload → State → Effect State)
    (o : AsyncEventQueue State Payload Handlers) (hr : Ready o)
    (hq : quiet run o.state_ (o.local_queue ++ o.queue_)) :
    ∃ bound, ∀ fuel, bound ≤ fuel → Teardown run fuel o =
      .done ⟨applyAll run o.state_ (o.local_queue ++ o.queue_), o.handlers_, true, [],
        none, [], o.applied ++ (o.local_queue ++ o.queue_) ++ [.Shutdown], o.log⟩ := by
  obtain ⟨n, hn⟩ := EventMainN_to_exit run o hr hq
  refine ⟨n, fun fuel hfuel => ?_⟩
  have hj := join_of_EventMainN run n (o.PostEvent .Shutdown)
    (by simpa [PostEvent] using Ready_thread o hr) (by rw [hn]) fuel hfuel
  simp [Teardown, hj, hn]

theorem EventMain_quiet_step (run : Event Payload → State → Effect State)
    (o : AsyncEventQueue State Payload Handlers) (hr : Ready o)
    (hq : quiet run o.state_ (o.local_queue ++ o.queue_)) :
    ∃ d, o.local_queue ++ o.queue_ =
          d ++ ((EventMain run o).local_queue ++ (EventMain run o).queue_) ∧
      (EventMain run o).applied = o.applied ++ d ∧
      (EventMain run o).state_ = applyAll run o.state_ d ∧
      Ready (EventMain run o) ∧
      (EventMain run o).log = o.log ∧
      (EventMain run o).handlers_ = o.handlers_ := by
  obtain ⟨s, h, sd, q, t, l, a, lg⟩ := o
  simp only at hq
  rcases hr with ⟨ht, hl⟩ | ⟨ht, hl, hsd⟩ | ⟨ht, hsd⟩
  · simp only at ht hl
    subst ht hl
    exact ⟨[], by simp [EventMain_entry, applyAll, Ready]⟩
  · simp only at ht hl hsd
    subst ht hl hsd
    cases q with
    | nil => exact ⟨[], by simp [EventMain_blocked, applyAll, Ready]⟩
    | cons e q => exact ⟨[], by simp [EventMain_drain, applyAll, Ready]⟩
  · simp only at ht hsd
    subst ht hsd
    cases l with
    | nil => exact ⟨[], by simp [EventMain_batch_end, applyAll, Ready]⟩
    | cons e rest =>
      obtain ⟨_, hout, hsd, _⟩ := hq
      exact ⟨[e], by simp [EventMain_returned, hout, hsd, applyAll, Ready]⟩

theorem Ready_PostEvent (o : AsyncEventQueue State Payload Handlers) (e : Event Payload)
    (hr : Ready o) : Ready (o.PostEvent e) := hr

theorem Teardown_exec_quiet (run : Event Payload → State → Effect State) :
    ∀ (sched : List (Action Payload)) (o : AsyncEventQueue State Payload Handlers),
      Ready o → quiet run o.state_ (o.local_queue ++ o.queue_ ++ posted sched) →
      ∃ bound, ∀ fuel, bound ≤ fuel → Teardown run fuel (exec run sched o) =
        .done ⟨applyAll run o.state_ (o.local_queue ++ o.queue_ ++ posted sched),
          o.handlers_, true, [], none, [],
          o.applied ++ (o.local_queue ++ o.queue_ ++ posted sched) ++ [.Shutdown], o.log⟩ := by
  intro sched
  induction sched with
  | nil =>
    intro o hr hq
    simp only [posted, List.append_nil] at hq ⊢
    exact Teardown_of_quiet run o hr hq
  | cons act rest ih =>
    intro o hr hq
    cases act with
    | post p e =>
      have hq2 : quiet run (o.PostEvent e).state_
          ((o.PostEvent e).local_queue ++ (o.PostEvent e).queue_ ++ posted rest) := by
        simpa [PostEvent, posted] using hq
      obtain ⟨bound, hb⟩ := ih (o.PostEvent e) (Ready_PostEvent o e hr) hq2
      refine ⟨bound, fun fuel hfuel => ?_⟩
      have := hb fuel hfuel
      simpa [exec, act, PostEvent, posted] using this
    | work =>
      simp only [posted] at hq ⊢
      obtain ⟨hq1, hq3⟩ := (quiet_append run _ _ _).1 hq
      obtain ⟨d, hd, happ, hst, hr2, hlog, hh⟩ := EventMain_quiet_step run o hr hq1
      have hq4 : quiet run (EventMain run o).state_
          ((EventMain run o).local_queue ++ (EventMain run o).queue_ ++ posted rest) := by
        rw [hd, List.append_assoc] at hq
        rw [hst]
        exact ((quiet_append run _ _ _).1 hq).2
      obtain ⟨bound, hb⟩ := ih (EventMain run o) hr2 hq4
      refine ⟨bound, fun fuel hfuel => ?_⟩
      have := hb fuel hfuel
      simp only [exec, act]
      rw [this, hst, happ, hlog, hh, hd]
      simp [applyAll_append]

theorem postedBy_sublist (producer : Nat) (sched : List (Action Payload)) :
    List.Sublist (postedBy producer sched) (posted sched) := by
  induction sched with
  | nil => exact List.Sublist.slnil
  | cons act rest ih =>
    cases act with
    | post p e =>
      by_cases hp : p = producer
      · simpa [postedBy, posted, hp] using ih
      · simpa [postedBy, posted, hp] using List.Sublist.cons e ih
    | work => simpa [postedBy, posted] using ih

/-- C1: for every schedule, i.e. every interleaving of atomic `PostEvent` calls
of any number of producers with steps of the event thread, in which the posted
events are not `Shutdown` and their application one after another raises no
error, a `Teardown` called after the schedule returns, and then the events whose
`Run` the worker called are exactly the posted events in the order they entered
the queue (followed by the `Shutdown` of `Teardown`), so each producer's events
are applied in that producer's post order, and the final state is the result of
applying the events one after another to the initial state. -/
theorem exec_applies_posted_in_order (run : Event Payload → State → Effect State)
    (initial_state : State) (handlers : Option Handlers) (sched : List (Action Payload))
    (hq : quiet run initial_state (posted sched)) :
    ∃ o0, Setup (AsyncEventQueue.new initial_state handlers) = .ok o0 ∧
      ∃ bound o, (∀ fuel, bound ≤ fuel → Teardown run fuel (exec run sched o0) = .done o) ∧
        o.applied = posted sched ++ [.Shutdown] ∧
        o.state_ = applyAll run initial_state (posted sched) ∧
        ∀ producer, List.Sublist (postedBy producer sched) o.applied := by
  refine ⟨⟨initial_state, handlers, true, [], some .entry, [], [], 0⟩, rfl, ?_⟩
  obtain ⟨bound, hb⟩ := Teardown_exec_quiet run sched
    (⟨initial_state, handlers, true, [], some .entry, [], [], 0⟩ :
      AsyncEventQueue State Payload Handlers) (Or.inl ⟨rfl, rfl⟩) (by simpa using hq)
  refine ⟨bound, _, hb, by simp, by simp, fun producer => ?_⟩
  simpa using (postedBy_sublist producer sched).trans (List.sublist_append_left _ _)

/-! ## After the event thread has exited -/

theorem exec_exited (run : Event Payload → State → Effect State) :
    ∀ (sched : List (Action Payload)) (o : AsyncEventQueue State Payload Handlers),
      o.event_thread_ = some .exited →
      exec run sched o = { o with queue_ := o.queue_ ++ posted sched } := by
  intro sched
  induction sched with
  | nil => intro o _; simp [exec, posted]
  | cons act rest ih =>
    intro o ho
    cases act with
    | post p e =>
      have := ih (o.PostEvent e) ho
      simpa [exec, act, PostEvent, posted] using this
    | work =>
      simp only [exec, act, posted, EventMain_exited run o ho]
      exact ih o ho

theorem Teardown_exited (run : Event Payload → State → Effect State) (fuel : Nat)
    (o : AsyncEventQueue State Payload Handlers) (ho : o.event_thread_ = some .exited) :
    Teardown run fuel o = .done { o with queue_ := [], event_thread_ := none } := by
  have hj := join_exited run fuel (o.PostEvent .Shutdown) ho
  simp only [Teardown, hj]
  rfl

theorem exec_fatal_batch (run : Event Payload → State → Effect State)
    (h : Option Handlers) (lg : Nat) (e : Event Payload) (rest : List (Event Payload)) :
    ∀ (sched : List (Action Payload)) (pre q a : List (Event Payload)) (s : State),
      quiet run s pre → (e.Run run (applyAll run s pre)).outcome = .unexpected →
      pre.length + 1 ≤ works sched →
      exec run sched ⟨s, h, false, q, some .processing, pre ++ e :: rest, a, lg⟩ =
        ⟨(e.Run run (applyAll run s pre)).state, h, (e.Run run (applyAll run s pre)).shutdown,
          q ++ posted sched, some .exited, rest, a ++ pre ++ [e], lg + 1⟩ := by
  intro sched
  induction sched with
  | nil => intro pre q a s _ _ hw; simp [works] at hw
  | cons act r ih =>
    intro pre q a s hq hf hw
    cases act with
    | post p e2 =>
      have := ih pre (q ++ [e2]) a s hq hf (by simpa [works] using hw)
      simpa [exec, act, PostEvent, posted] using this
    | work =>
      cases pre with
      | nil =>
        simp only [applyAll] at hf
        simp only [exec, act, List.nil_append, applyAll, posted]
        rw [EventMain_unexpected run s h q rest a lg e hf, exec_exited run r _ rfl]
        simp
      | cons e1 pre2 =>
        obtain ⟨_, hout, hsd, hq2⟩ := hq
        simp only [exec, act, List.cons_append, applyAll, posted]
        rw [EventMain_returned run s h q (pre2 ++ e :: rest) a lg e1 hout, hsd,
          ih pre2 q (a ++ [e1]) _ hq2 (by simpa [applyAll] using hf)
            (by simp only [works, List.length_cons] at hw; omega)]
        simp

/-- C5: when the event thread works on a batch `pre ++ event :: rest` in which
the events before `event` are applied without error and the application of
`event` throws an unexpected `std::exception`, then after every schedule that
gives the thread the steps to reach `event` (and whatever further steps and
posts) there is exactly one more `Log::error` entry, the applied events are
those up to and including `event` and none of `rest` nor of the queue, and the
thread has left `EventMain`; a `Teardown` called afterwards returns, whatever
the fuel, with the same record. -/
theorem unexpected_error_reported_once (run : Event Payload → State → Effect State)
    (o : AsyncEventQueue State Payload Handlers) (pre rest : List (Event Payload))
    (event : Event Payload) (sched : List (Action Payload))
    (hthread : o.event_thread_ = some .processing) (hrunning : o.running = true)
    (hbatch : o.local_queue = pre ++ event :: rest)
    (hpre : quiet run o.state_ pre)
    (hfatal : (event.Run run (applyAll run o.state_ pre)).outcome = .unexpected)
    (hsteps : pre.length + 1 ≤ works sched) :
    (exec run sched o).log = o.log + 1 ∧
    (exec run sched o).applied = o.applied ++ pre ++ [event] ∧
    (exec run sched o).event_thread_ = some .exited ∧
    ∀ fuel, ∃ o2, Teardown run fuel (exec run sched o) = .done o2 ∧
      o2.log = o.log + 1 ∧ o2.applied = o.applied ++ pre ++ [event] ∧
      o2.event_thread_ = none ∧ o2.queue_ = [] := by
  obtain ⟨s, h, sd, q, t, l, a, lg⟩ := o
  simp only [running, Bool.not_eq_true'] at hthread hrunning hbatch hpre hfatal
  subst hthread hrunning hbatch
  rw [exec_fatal_batch run h lg event rest sched pre q a s hpre hfatal hsteps]
  refine ⟨rfl, rfl, rfl, fun fuel => ?_⟩
  rw [Teardown_exited run fuel _ rfl]
  exact ⟨_, rfl, rfl, rfl, rfl, rfl⟩

/-- The scenario of C1 in the sample domain: `SetX 1`, `SetX 2`, `Stop` posted by
two producers between steps of the event thread. -/
theorem exec_applies_posted_in_order_witness :
    quiet sampleRun 0 (posted sampleSchedule) ∧
    ∃ o0, Setup (AsyncEventQueue.new 0 (some ())) = .ok o0 ∧
      ∃ bound o, (∀ fuel, bound ≤ fuel →
          Teardown sampleRun fuel (exec sampleRun sampleSchedule o0) = .done o) ∧
        o.applied = posted sampleSchedule ++ [.Shutdown] ∧
        o.state_ = applyAll sampleRun 0 (posted sampleSchedule) ∧
        ∀ producer, List.Sublist (postedBy producer sampleSchedule) o.applied :=
  ⟨by decide, exec_applies_posted_in_order sampleRun 0 (some ()) sampleSchedule (by decide)⟩

/-- The scenario of C5 in the sample domain: the batch `SetX 1, Fatal, SetX 2`. -/
theorem unexpected_error_reported_once_witness :
    quiet sampleRun sampleInBatch.state_ [.domain (.SetX 1)] ∧
    (exec sampleRun [.work, .post 0 .Stop, .work, .work] sampleInBatch).log =
        sampleInBatch.log + 1 ∧
    (exec sampleRun [.work, .post 0 .Stop, .work, .work] sampleInBatch).applied =
        sampleInBatch.applied ++ [.domain (.SetX 1)] ++ [.domain .Fatal] ∧
    (exec sampleRun [.work, .post 0 .Stop, .work, .work] sampleInBatch).event_thread_ =
        some .exited ∧
    ∀ fuel, ∃ o2, Teardown sampleRun fuel
        (exec sampleRun [.work, .post 0 .Stop, .work, .work] sampleInBatch) = .done o2 ∧
      o2.log = sampleInBatch.log + 1 ∧
      o2.applied = sampleInBatch.applied ++ [.domain (.SetX 1)] ++ [.domain .Fatal] ∧
      o2.event_thread_ = none ∧ o2.queue_ = [] :=
  ⟨by decide, unexpected_error_reported_once sampleRun sampleInBatch [.domain (.SetX 1)]
    [.domain (.SetX 2)] (.domain .Fatal) [.work, .post 0 .Stop, .work, .work]
    rfl rfl rfl (by decide) rfl (by decide)⟩

/-! ## The shared queue -/

theorem queueOps_flatten (ops : List (QueueOp Payload)) :
    ∀ (batches : List (List (Event Payload))) (o : AsyncEventQueue State Payload Handlers),
      (queueOps ops (batches, o)).1.flatten ++ (queueOps ops (batches, o)).2.queue_ =
        batches.flatten ++ o.queue_ ++ postedOps ops := by
  induction ops with
  | nil => intro batches o; simp [queueOps, postedOps]
  | cons op rest ih =>
    intro batches o
    cases op with
    | post e =>
      simp only [queueOps, postedOps]
      rw [ih batches (o.PostEvent e)]
      simp [PostEvent]
    | dequeue =>
      simp only [queueOps, postedOps]
      rw [ih]
      simp [DequeueEvents]

/-- C6: `DequeueEvents` returns exactly the current contents of the queue, in
post order, and leaves the queue empty; `PostEvent` appends at the tail; and
after every sequence of `PostEvent` and `DequeueEvents` calls the batches
returned so far, concatenated, followed by what is still in the queue, are the
events that were in the queue at the start followed by the posted events in
post order: nothing is lost, duplicated or reordered. -/
theorem DequeueEvents_PostEvent_lossless_fifo (o : AsyncEventQueue State Payload Handlers)
    (ops : List (QueueOp Payload)) :
    (o.DequeueEvents).1 = o.queue_ ∧ (o.DequeueEvents).2.queue_ = [] ∧
    (∀ e, (o.PostEvent e).queue_ = o.queue_ ++ [e]) ∧
    (queueOps ops ([], o)).1.flatten ++ (queueOps ops ([], o)).2.queue_ =
      o.queue_ ++ postedOps ops := by
  refine ⟨rfl, rfl, fun _ => rfl, ?_⟩
  simpa using queueOps_flatten ops [] o

/-- C10: `PostEvent`, `PostStart` and `PostStop` return an object in which the
current state and the shutdown flag (hence `GetState` and `running`) are the
same as before, as is every field other than the queue, and the queue is the
earlier queue with exactly one event appended at the tail: the posted event,
a `Start` event, a `Stop` event. The operations are total: no error result. -/
theorem producer_ops_only_append (o : AsyncEventQueue State Payload Handlers)
    (e : Event Payload) :
    o.PostEvent e = ⟨o.state_, o.handlers_, o.shutdown_, o.queue_ ++ [e], o.event_thread_,
      o.local_queue, o.applied, o.log⟩ ∧
    o.PostStart = ⟨o.state_, o.handlers_, o.shutdown_, o.queue_ ++ [.Start], o.event_thread_,
      o.local_queue, o.applied, o.log⟩ ∧
    o.PostStop = ⟨o.state_, o.handlers_, o.shutdown_, o.queue_ ++ [.Stop], o.event_thread_,
      o.local_queue, o.applied, o.log⟩ ∧
    (o.PostEvent e).GetState = o.GetState ∧ (o.PostEvent e).running = o.running ∧
    o.PostStart.GetState = o.GetState ∧ o.PostStart.running = o.running ∧
    o.PostStop.GetState = o.GetState ∧ o.PostStop.running = o.running :=
  ⟨rfl, rfl, rfl, rfl, rfl, rfl, rfl, rfl, rfl⟩

/-! ## Lifecycle -/

/-- C9 (the code at the failing input): with a NULL handlers pointer `Setup`
throws nothing and starts the event thread. -/
theorem Setup_null_handlers_starts_thread (initial_state : State) :
    Setup (AsyncEventQueue.new initial_state (none : Option Handlers) :
        AsyncEventQueue State Payload Handlers) =
      .ok ⟨initial_state, none, true, [], some .entry, [], [], 0⟩ := rfl

theorem join_done_thread (run : Event Payload → State → Effect State) (fuel : Nat) :
    ∀ (o o1 : AsyncEventQueue State Payload Handlers),
      join run fuel o = .done o1 → o1.event_thread_ = none := by
  induction fuel with
  | zero =>
    intro o o1 hj
    cases ht : o.event_thread_ with
    | none => simp [join, ht] at hj
    | some pc =>
      cases pc <;> simp [join, ht] at hj
      rw [← hj]
  | succ n ih =>
    intro o o1 hj
    cases ht : o.event_thread_ with
    | none => simp [join, ht] at hj
    | some pc =>
      cases pc <;> simp only [join, ht] at hj
      · exact ih _ _ hj
      · exact ih _ _ hj
      · exact ih _ _ hj
      · simp at hj
        rw [← hj]

theorem Teardown_done (run : Event Payload → State → Effect State) (fuel : Nat)
    (o o2 : AsyncEventQueue State Payload Handlers) (hdone : Teardown run fuel o = .done o2) :
    o2.event_thread_ = none ∧ o2.queue_ = [] := by
  unfold Teardown at hdone
  cases hj : join run fuel (o.PostEvent .Shutdown) with
  | done o1 =>
    rw [hj] at hdone
    simp only [Completion.done.injEq] at hdone
    rw [← hdone]
    exact ⟨join_done_thread run fuel _ o1 hj, rfl⟩
  | pending => simp [hj] at hdone
  | thrown e => simp [hj] at hdone

theorem exec_no_thread (run : Event Payload → State → Effect State) :
    ∀ (sched : List (Action Payload)) (o : AsyncEventQueue State Payload Handlers),
      o.event_thread_ = none →
      exec run sched o = { o with queue_ := o.queue_ ++ posted sched } := by
  intro sched
  induction sched with
  | nil => intro o _; simp [exec, posted]
  | cons act rest ih =>
    intro o ho
    cases act with
    | post p e =>
      have := ih (o.PostEvent e) ho
      simpa [exec, act, PostEvent, posted] using this
    | work =>
      simp only [exec, act, posted, EventMain_no_thread run o ho]
      exact ih o ho

/-- C8 (counterexample): after `Teardown` has returned on the sample object, a
`PostStop` returns an object that differs from the one before the call: the
`Stop` event sits in the queue. The call is neither rejected nor a no-op. -/
theorem Teardown_then_PostStop_changes_queue :
    Teardown sampleRun 5 sampleStarted = .done sampleTornDown ∧
    sampleTornDown.PostStop ≠ sampleTornDown ∧
    sampleTornDown.PostStop.queue_ = [.Stop] := by
  decide

/-- C8 (amended): once `Teardown` has returned, `PostEvent` (and so `PostStart`
and `PostStop`) still returns normally and puts the event into the emptied
queue, changing no other field; no event thread is left, so whatever is posted
or scheduled afterwards the event is never applied and the state stays. -/
theorem PostEvent_after_Teardown (run : Event Payload → State → Effect State) (fuel : Nat)
    (o o2 : AsyncEventQueue State Payload Handlers) (e : Event Payload)
    (hdone : Teardown run fuel o = .done o2) :
    o2.PostEvent e = { o2 with queue_ := [e] } ∧
    o2.PostStart = { o2 with queue_ := [.Start] } ∧
    o2.PostStop = { o2 with queue_ := [.Stop] } ∧
    ∀ sched, (exec run sched (o2.PostEvent e)).applied = o2.applied ∧
      (exec run sched (o2.PostEvent e)).state_ = o2.state_ ∧
      (exec run sched (o2.PostEvent e)).shutdown_ = o2.shutdown_ ∧
      (exec run sched (o2.PostEvent e)).queue_ = e :: posted sched := by
  obtain ⟨ht, hq⟩ := Teardown_done run fuel o o2 hdone
  refine ⟨by simp [PostEvent, hq], by simp [PostStart, PostEvent, hq],
    by simp [PostStop, PostEvent, hq], fun sched => ?_⟩
  rw [exec_no_thread run sched (o2.PostEvent e) ht]
  simp [PostEvent, hq]

/-- The scenario of C8 in the sample domain: `Setup`, `Teardown`, then a post. -/
theorem PostEvent_after_Teardown_witness :
    Teardown sampleRun 5 sampleStarted = .done sampleTornDown ∧
    (sampleTornDown.PostEvent (.domain (.SetX 3)) =
        { sampleTornDown with queue_ := [.domain (.SetX 3)] } ∧
    sampleTornDown.PostStart = { sampleTornDown with queue_ := [.Start] } ∧
    sampleTornDown.PostStop = { sampleTornDown with queue_ := [.Stop] } ∧
    ∀ sched, (exec sampleRun sched (sampleTornDown.PostEvent (.domain (.SetX 3)))).applied =
        sampleTornDown.applied ∧
      (exec sampleRun sched (sampleTornDown.PostEvent (.domain (.SetX 3)))).state_ =
        sampleTornDown.state_ ∧
      (exec sampleRun sched (sampleTornDown.PostEvent (.domain (.SetX 3)))).shutdown_ =
        sampleTornDown.shutdown_ ∧
      (exec sampleRun sched (sampleTornDown.PostEvent (.domain (.SetX 3)))).queue_ =
        .domain (.SetX 3) :: posted sched) :=
  ⟨by decide, PostEvent_after_Teardown sampleRun 5 sampleStarted sampleTornDown
    (.domain (.SetX 3)) (by decide)⟩

/-! ## An `Exception::Base` inside a batch -/

theorem EventMainN_blocked (run : Event Payload → State → Effect State) (n : Nat)
    (o : AsyncEventQueue State Payload Handlers) (ht : o.event_thread_ = some .waiting)
    (hq : o.queue_ = []) : EventMainN run n o = o := by
  have hstep : EventMain run o = o := by simp [EventMain, ht, hq]
  induction n with
  | zero => rfl
  | succ n ih => simp only [EventMainN, hstep, ih]

theorem join_blocked (run : Event Payload → State → Effect State) (fuel : Nat)
    (o : AsyncEventQueue State Payload Handlers) (ht : o.event_thread_ = some .waiting)
    (hq : o.queue_ = []) : join run fuel o = .pending := by
  have hstep : EventMain run o = o := by simp [EventMain, ht, hq]
  induction fuel with
  | zero => simp [join, ht]
  | succ n ih => simp only [join, ht, hstep, ih]

/-- C2 (the code at the failing input): the sample object gets `Bad` and
`SetX 5` posted and drains them as one batch; `Bad` throws an
`Exception::Base`. The event thread is then back at the wait with `SetX 5`
unapplied in `local_queue`; no number of further steps applies it; and when
another event arrives the next `DequeueEvents` overwrites `local_queue`, so
the applied events are `Bad, SetX 7` and `SetX 5` is lost. -/
theorem batch_rest_dropped_after_Base_error :
    Setup (AsyncEventQueue.new 0 (some ())) = .ok sampleStarted ∧
    exec sampleRun [.post 0 (.domain .Bad), .post 0 (.domain (.SetX 5)), .work, .work, .work]
      sampleStarted = sampleAbandoned ∧
    (∀ n, EventMainN sampleRun n sampleAbandoned = sampleAbandoned) ∧
    exec sampleRun [.post 1 (.domain (.SetX 7)), .work, .work, .work] sampleAbandoned =
      ⟨7, some (), false, [], some .waiting, [],
        [.domain .Bad, .domain (.SetX 7)], 0⟩ :=
  ⟨rfl, by decide, fun n => EventMainN_blocked sampleRun n sampleAbandoned rfl rfl, by decide⟩

/-- C3 (the code at the failing input): `Bad` is posted, then `Shutdown`, and
the event thread drains both as one batch; the error of `Bad` cuts the batch
short, so `Shutdown` is never applied; a `SetX 7` posted after `Shutdown` is
then drained and applied. -/
theorem event_posted_after_Shutdown_applied :
    Setup (AsyncEventQueue.new 0 (some ())) = .ok sampleStarted ∧
    posted ([.post 0 (.domain .Bad), .post 1 .Shutdown, .work, .work, .work,
      .post 2 (.domain (.SetX 7)), .work, .work] : List (Action Sample)) =
      [.domain .Bad, .Shutdown, .domain (.SetX 7)] ∧
    exec sampleRun [.post 0 (.domain .Bad), .post 1 .Shutdown, .work, .work, .work,
      .post 2 (.domain (.SetX 7)), .work, .work] sampleStarted =
      ⟨7, some (), false, [], some .processing, [],
        [.domain .Bad, .domain (.SetX 7)], 0⟩ :=
  ⟨rfl, by decide, by decide⟩

/-- C4 (the code at the failing input): `Bad` is in the queue when `Teardown`
posts `Shutdown`; the event thread drains both as one batch, the error of
`Bad` cuts the batch short and the thread waits on the empty queue for ever:
whatever the fuel, the join in `Teardown` is still pending. -/
theorem Teardown_pending_after_Base_error :
    Setup (AsyncEventQueue.new 0 (some ())) = .ok sampleStarted ∧
    ∀ fuel, Teardown sampleRun fuel (exec sampleRun [.post 0 (.domain .Bad)] sampleStarted) =
      .pending := by
  refine ⟨rfl, fun fuel => ?_⟩
  have hb : ∀ k, join sampleRun k (⟨0, some (), false, [], some .waiting, [.Shutdown],
      [.domain .Bad], 0⟩ : AsyncEventQueue Nat Sample Unit) = .pending :=
    fun k => join_blocked sampleRun k _ rfl rfl
  match fuel with
  | 0 => decide
  | 1 => decide
  | 2 => decide
  | k + 3 =>
    have hj : join sampleRun (k + 3)
        ((exec sampleRun [.post 0 (.domain .Bad)] sampleStarted).PostEvent .Shutdown) =
        .pending := hb k
    simp only [Teardown, hj]

/-- C7 (the code at the failing input): `Fatal` is posted and applied, the
event thread logs and leaves `EventMain`; the `Teardown` that follows returns,
whatever the fuel, and afterwards `running()` is still `true`. -/
theorem running_after_Teardown_of_fatal_exit :
    Setup (AsyncEventQueue.new 0 (some ())) = .ok sampleStarted ∧
    ∀ fuel, Teardown sampleRun fuel
        (exec sampleRun [.post 0 (.domain .Fatal), .work, .work, .work] sampleStarted) =
      .done ⟨0, some (), false, [], none, [], [.domain .Fatal], 1⟩ ∧
      running (⟨0, some (), false, [], none, [], [.domain .Fatal], 1⟩ :
        AsyncEventQueue Nat Sample Unit) = true := by
  refine ⟨rfl, fun fuel => ⟨?_, rfl⟩⟩
  have hx : exec sampleRun [.post 0 (.domain .Fatal), .work, .work, .work] sampleStarted =
      ⟨0, some (), false, [], some .exited, [], [.domain .Fatal], 1⟩ := by decide
  rw [hx, Teardown_exited sampleRun fuel _ rfl]

/-! ## After `Shutdown` has been applied -/

theorem act_Halted (run : Event Payload → State → Effect State) (a : Action Payload)
    (o : AsyncEventQueue State Payload Handlers) (hh : Halted o) :
    Halted (act run a o) ∧ (act run a o).applied = o.applied ∧
      (act run a o).state_ = o.state_ := by
  cases a with
  | post p e => exact ⟨hh, rfl, rfl⟩
  | work =>
    obtain ⟨s, h, sd, q, t, l, ap, lg⟩ := o
    rcases hh with ht | ht | ⟨ht, hsd⟩
    · simp only at ht
      subst ht
      simp [act, EventMain, Halted]
    · simp only at ht
      subst ht
      simp [act, EventMain, Halted]
    · simp only at ht hsd
      subst ht hsd
      simp [act, EventMain_stopped, Halted]

theorem exec_Halted (run : Event Payload → State → Effect State) :
    ∀ (sched : List (Action Payload)) (o : AsyncEventQueue State Payload Handlers),
      Halted o → (exec run sched o).applied = o.applied ∧
        (exec run sched o).state_ = o.state_ := by
  intro sched
  induction sched with
  | nil => intro o _; exact ⟨rfl, rfl⟩
  | cons a rest ih =>
    intro o hh
    obtain ⟨h1, h2, h3⟩ := act_Halted run a o hh
    obtain ⟨h4, h5⟩ := ih (act run a o) h1
    exact ⟨by simp only [exec]; rw [h4, h2], by simp only [exec]; rw [h5, h3]⟩

theorem act_Shutdown_applied (run : Event Payload → State → Effect State)
    (a : Action Payload) (o : AsyncEventQueue State Payload Handlers)
    (hinv : Event.Shutdown ∈ o.applied → Halted o)
    (hmem : Event.Shutdown ∈ (act run a o).applied) : Halted (act run a o) := by
  by_cases hin : Event.Shutdown ∈ o.applied
  · exact (act_Halted run a o (hinv hin)).1
  · cases a with
    | post p e => exact absurd hmem hin
    | work =>
      obtain ⟨s, h, sd, q, t, l, ap, lg⟩ := o
      simp only at hin
      simp only [act] at hmem ⊢
      cases t with
      | none => exact Or.inr (Or.inl rfl)
      | some pc =>
        cases pc with
        | entry => exact absurd hmem hin
        | waiting =>
          cases q with
          | nil => exact absurd hmem hin
          | cons e q => rw [EventMain_drain run s h sd (e :: q) l ap lg (by simp)] at hmem
                        exact absurd hmem hin
        | exited => exact Or.inl rfl
        | processing =>
          cases sd with
          | true => rw [EventMain_stopped]; exact Or.inl rfl
          | false =>
            cases l with
            | nil => rw [EventMain_batch_end] at hmem; exact absurd hmem hin
            | cons e rest =>
              by_cases he : e = .Shutdown
              · subst he
                rw [EventMain_returned run s h q rest ap lg .Shutdown rfl]
                exact Or.inr (Or.inr ⟨rfl, rfl⟩)
              · exfalso
                cases hout : (e.Run run s).outcome with
                | returned =>
                  rw [EventMain_returned run s h q rest ap lg e hout] at hmem
                  simp at hmem
                  rcases hmem with hm | hm
                  · exact hin hm
                  · exact he hm.symm
                | base =>
                  rw [EventMain_base run s h q rest ap lg e hout] at hmem
                  simp at hmem
                  rcases hmem with hm | hm
                  · exact hin hm
                  · exact he hm.symm
                | unexpected =>
                  rw [EventMain_unexpected run s h q rest ap lg e hout] at hmem
                  simp at hmem
                  rcases hmem with hm | hm
                  · exact hin hm
                  · exact he hm.symm

theorem exec_Shutdown_applied (run : Event Payload → State → Effect State) :
    ∀ (sched : List (Action Payload)) (o : AsyncEventQueue State Payload Handlers),
      (Event.Shutdown ∈ o.applied → Halted o) →
      Event.Shutdown ∈ (exec run sched o).applied → Halted (exec run sched o) := by
  intro sched
  induction sched with
  | nil => intro o hinv hmem; exact hinv hmem
  | cons a rest ih =>
    intro o hinv hmem
    exact ih (act run a o) (act_Shutdown_applied run a o hinv) hmem

theorem exec_append (run : Event Payload → State → Effect State) :
    ∀ (s₁ s₂ : List (Action Payload)) (o : AsyncEventQueue State Payload Handlers),
      exec run (s₁ ++ s₂) o = exec run s₂ (exec run s₁ o) := by
  intro s₁
  induction s₁ with
  | nil => intro s₂ o; rfl
  | cons a rest ih => intro s₂ o; simp only [List.cons_append, exec]; exact ih s₂ _

/-- Once the `Shutdown` event has been applied, no continuation of the
execution applies another event or changes the state. -/
theorem applied_frozen_after_Shutdown (run : Event Payload → State → Effect State)
    (sched more : List (Action Payload)) (o : AsyncEventQueue State Payload Handlers)
    (hfresh : o.applied = [])
    (hsd : Event.Shutdown ∈ (exec run sched o).applied) :
    (exec run (sched ++ more) o).applied = (exec run sched o).applied ∧
      (exec run (sched ++ more) o).state_ = (exec run sched o).state_ := by
  rw [exec_append]
  exact exec_Halted run more _
    (exec_Shutdown_applied run sched o (by simp [hfresh]) hsd)

/-! ## Where applied events come from -/

theorem EventMain_applied_sublist (run : Event Payload → State → Effect State)
    (o : AsyncEventQueue State Payload Handlers) :
    ∃ d, (EventMain run o).applied = o.applied ++ d ∧
      ∀ t, List.Sublist (d ++ (live (EventMain run o) ++ (EventMain run o).queue_ ++ t))
        (live o ++ o.queue_ ++ t) := by
  obtain ⟨s, h, sd, q, th, l, ap, lg⟩ := o
  cases th with
  | none => exact ⟨[], by simp [EventMain], fun t => by simp [EventMain]⟩
  | some pc =>
    cases pc with
    | entry => exact ⟨[], by simp [EventMain_entry], fun t => by simp [EventMain_entry, live]⟩
    | exited => exact ⟨[], by simp [EventMain], fun t => by simp [EventMain]⟩
    | waiting =>
      cases q with
      | nil => exact ⟨[], by simp [EventMain_blocked], fun t => by simp [EventMain_blocked]⟩
      | cons e q =>
        exact ⟨[], by simp [EventMain_drain], fun t => by simp [EventMain_drain, live]⟩
    | processing =>
      cases sd with
      | true =>
        exact ⟨[], by simp [EventMain_stopped], fun t => by simp [EventMain_stopped, live]⟩
      | false =>
        cases l with
        | nil =>
          refine ⟨[], by simp [EventMain_batch_end], fun t => ?_⟩
          simp [EventMain_batch_end, live]
        | cons e rest =>
          cases hout : (e.Run run s).outcome with
          | returned =>
            refine ⟨[e], by simp [EventMain_returned, hout], fun t => ?_⟩
            simp [EventMain_returned, hout, live]
          | base =>
            refine ⟨[e], by simp [EventMain_base, hout], fun t => ?_⟩
            cases hsd : (e.Run run s).shutdown <;> simp [EventMain_base, hout, hsd, live]
          | unexpected =>
            refine ⟨[e], by simp [EventMain_unexpected, hout], fun t => ?_⟩
            simp [EventMain_unexpected, hout, live]

/-- In every execution the events applied are taken, in order and each at most
once, from the batch in work, the queue and the later posts: a sublist, since
events are dropped when a batch is cut short or the thread has ended. -/
theorem exec_applied_sublist (run : Event Payload → State → Effect State) :
    ∀ (sched : List (Action Payload)) (o : AsyncEventQueue State Payload Handlers),
      ∃ x, (exec run sched o).applied = o.applied ++ x ∧
        List.Sublist x (live o ++ o.queue_ ++ posted sched) := by
  intro sched
  induction sched with
  | nil => intro o; exact ⟨[], by simp [exec], List.nil_sublist _⟩
  | cons a rest ih =>
    intro o
    cases a with
    | post p e =>
      obtain ⟨x, hx, hsub⟩ := ih (o.PostEvent e)
      refine ⟨x, by simpa [exec, act, PostEvent] using hx, ?_⟩
      simpa [PostEvent, live, posted] using hsub
    | work =>
      obtain ⟨d, hd, hsub⟩ := EventMain_applied_sublist run o
      obtain ⟨x, hx, hxs⟩ := ih (EventMain run o)
      refine ⟨d ++ x, by simp only [exec, act]; rw [hx, hd, List.append_assoc], ?_⟩
      exact ((List.append_sublist_append_left d).2 hxs).trans (hsub (posted rest))

/-- What the worker does after an `Exception::Base`: when the event at the head
of the batch `event :: rest` throws it (without a `PerformShutdown`), then in
every continuation the events applied after `event` come from the queue and
the later posts only, never from `rest`. -/
theorem Base_error_abandons_batch (run : Event Payload → State → Effect State) (s : State)
    (h : Option Handlers) (q rest a : List (Event Payload)) (lg : Nat) (event : Event Payload)
    (sched : List (Action Payload))
    (hout : (event.Run run s).outcome = .base) (hsd : (event.Run run s).shutdown = false) :
    ∃ x, (exec run (.work :: sched)
        ⟨s, h, false, q, some .processing, event :: rest, a, lg⟩).applied = a ++ [event] ++ x ∧
      List.Sublist x (q ++ posted sched) := by
  simp only [exec, act]
  rw [EventMain_base run s h q rest a lg event hout, hsd]
  obtain ⟨x, hx, hsub⟩ := exec_applied_sublist run sched
    (⟨(event.Run run s).state, h, false, q, some .waiting, rest, a ++ [event], lg⟩ :
      AsyncEventQueue State Payload Handlers)
  exact ⟨x, by simpa using hx, by simpa [live] using hsub⟩

end cpp_samples
